import Mathlib

/-!
Verification of the onion-routing workshop repository.

The TypeScript sources are shallowly embedded as Lean definitions:

* JavaScript strings become `List Char` (written `Str`); the JS methods
  `slice(0, n)`, `slice(n)`, `padStart`, string concatenation and template
  literals become `List.take`, `List.drop`, `padStart10`, `++` and `natToStr`.
* The WebCrypto primitives (RSA-OAEP, AES-CBC, base64 conversion of raw
  buffers) are external library calls, not repository code; they are
  abstracted into a `Crypto` structure whose fields are the exact
  compositions the repository invokes (for instance `aesEncB64` is the
  composition TextEncoder.encode / AES-CBC encrypt / arrayBufferToBase64
  performed inside `symEncrypt` of src/crypto.ts).  The algebraic laws the
  real primitives satisfy (decryption inverts encryption, a 16-byte IV
  base64-encodes to 24 characters, a 2048-bit RSA-OAEP ciphertext
  base64-encodes to 344 characters) appear as explicit hypotheses of the
  theorems, and a concrete instance `toyCrypto` satisfying all the laws
  witnesses that the hypotheses are satisfiable.
* `../config` is not part of the sources; the base ports
  BASE_ONION_ROUTER_PORT, BASE_USER_PORT are therefore left as `Nat`
  parameters (`bRouter`, `bUser`) everywhere they occur.
* The fresh randomness the code draws (random symmetric key and IV per
  layer, random directory index per loop iteration) is passed in
  explicitly: keys and IVs as parameters, the index stream as a list.
-/

namespace Onion

/-- JavaScript strings are modelled as lists of characters. -/
abbrev Str := List Char

/-- Model of the template literal rendering of a number, as in
the TS sources (decimal digits, '0' for zero). -/
def natToStr (n : Nat) : Str :=
  if n = 0 then ['0']
  else (Nat.digits 10 n).reverse.map fun d => Char.ofNat (48 + d)

/-- Model of JS String.prototype.padStart(10, "0") from the user's
sendMessage handler: left-pad with '0' up to width 10 (no-op on longer
strings, as in JS). -/
def padStart10 (s : Str) : Str :=
  List.replicate (10 - s.length) '0' ++ s

/-- Decimal digit-string evaluation, the numeric core of JS parseInt. -/
def strToNat (s : Str) : Nat :=
  s.foldl (fun acc c => 10 * acc + (c.toNat - 48)) 0

/-- Model of JS parseInt(s, 10) on the digit strings the router handles:
parse the longest leading digit run.  (parseInt returns NaN when the body
starts with a non-digit; the router only ever applies it to the 10-digit
zero-padded addresses built by the user, where that case does not arise.) -/
def parseInt10 (s : Str) : Nat :=
  strToNat (s.takeWhile fun c => c.isDigit)

/-- The 10-character zero-padded decimal address encoding used inside
onion layers (section of the user's sendMessage handler). -/
def addr10 (a : Nat) : Str := padStart10 (natToStr a)

-- ### helper lemmas on the string/number embedding

theorem take_len_append (l t : List Char) : (l ++ t).take l.length = l := by
  induction l with
  | nil => rfl
  | cons c l ih => simp [ih]

theorem drop_len_append (l t : List Char) : (l ++ t).drop l.length = t := by
  induction l with
  | nil => rfl
  | cons c l ih => simp [ih]

theorem take_eq_of_len_append {l t : List Char} {n : Nat} (h : l.length = n) :
    (l ++ t).take n = l := by
  subst h; exact take_len_append l t

theorem drop_eq_of_len_append {l t : List Char} {n : Nat} (h : l.length = n) :
    (l ++ t).drop n = t := by
  subst h; exact drop_len_append l t

theorem digitChar_toNat {d : Nat} (hd : d < 10) :
    (Char.ofNat (48 + d)).toNat = 48 + d := by
  revert hd
  exact (by decide : ∀ e, e < 10 → (Char.ofNat (48 + e)).toNat = 48 + e) d

theorem digitChar_isDigit {d : Nat} (hd : d < 10) :
    (Char.ofNat (48 + d)).isDigit = true := by
  revert hd
  exact (by decide : ∀ e, e < 10 → (Char.ofNat (48 + e)).isDigit = true) d

theorem natToStr_isDigit {n : Nat} : ∀ c ∈ natToStr n, c.isDigit = true := by
  intro c hc
  unfold natToStr at hc
  by_cases h : n = 0
  · simp [h] at hc; subst hc; decide
  · simp [h] at hc
    obtain ⟨d, hd, rfl⟩ := hc
    exact digitChar_isDigit (Nat.digits_lt_base (by norm_num) hd)

theorem addr10_isDigit {a : Nat} : ∀ c ∈ addr10 a, c.isDigit = true := by
  intro c hc
  unfold addr10 padStart10 at hc
  rcases List.mem_append.mp hc with h | h
  · have := List.eq_of_mem_replicate h
    subst this; decide
  · exact natToStr_isDigit c h

theorem takeWhile_all {p : Char → Bool} :
    ∀ {l : Str}, (∀ c ∈ l, p c = true) → l.takeWhile p = l := by
  intro l
  induction l with
  | nil => intro _; rfl
  | cons c t ih =>
    intro h
    have hc : p c = true := h c (List.mem_cons_self c t)
    simp [List.takeWhile_cons, hc, ih fun x hx => h x (List.mem_cons_of_mem c hx)]

theorem strToNat_replicate_zero (k : Nat) (t : Str) :
    strToNat (List.replicate k '0' ++ t) = strToNat t := by
  unfold strToNat
  rw [List.foldl_append]
  have : List.foldl (fun acc c => 10 * acc + (c.toNat - 48)) 0 (List.replicate k '0') = 0 := by
    induction k with
    | zero => rfl
    | succ m ih => simpa [List.replicate_succ] using ih
  rw [this]

theorem strToNat_rev_digits (L : List Nat) (hL : ∀ d ∈ L, d < 10) (acc : Nat) :
    List.foldl (fun a c => 10 * a + (c.toNat - 48)) acc
      (L.reverse.map fun d => Char.ofNat (48 + d)) =
    acc * 10 ^ L.length + Nat.ofDigits 10 L := by
  induction L generalizing acc with
  | nil => simp [Nat.ofDigits]
  | cons d t ih =>
    have hd : d < 10 := hL d (List.mem_cons_self d t)
    have ht : ∀ e ∈ t, e < 10 := fun e he => hL e (List.mem_cons_of_mem d he)
    rw [List.reverse_cons, List.map_append, List.foldl_append, ih ht acc]
    simp only [List.map_cons, List.map_nil, List.foldl_cons, List.foldl_nil,
      Nat.ofDigits_cons, List.length_cons]
    rw [digitChar_toNat hd]
    ring_nf
    omega

theorem strToNat_natToStr (n : Nat) : strToNat (natToStr n) = n := by
  by_cases h : n = 0
  · subst h; decide
  · unfold natToStr
    rw [if_neg h]
    have := strToNat_rev_digits (Nat.digits 10 n)
      (fun d hd => Nat.digits_lt_base (by norm_num) hd) 0
    unfold strToNat
    rw [this, Nat.ofDigits_digits]
    ring

theorem natToStr_length_le {n : Nat} (h : n < 10 ^ 10) : (natToStr n).length ≤ 10 := by
  unfold natToStr
  by_cases h0 : n = 0
  · simp [h0]
  · rw [if_neg h0]
    simp only [List.length_map, List.length_reverse]
    rw [Nat.digits_len 10 n (by norm_num) h0]
    have := Nat.log_lt_of_lt_pow h0 h
    omega

theorem addr10_length {a : Nat} (h : a < 10 ^ 10) : (addr10 a).length = 10 := by
  unfold addr10 padStart10
  have := natToStr_length_le h
  simp only [List.length_append, List.length_replicate]
  omega

theorem parseInt10_addr10 (a : Nat) : parseInt10 (addr10 a) = a := by
  unfold parseInt10
  rw [takeWhile_all addr10_isDigit]
  unfold addr10 padStart10
  rw [strToNat_replicate_zero, strToNat_natToStr]

-- ### data model: registry (src/registry/registry.ts)

/-- Node record of the registry (registry.ts): an id together with the
base64-exported public key string. -/
structure Node where
  nodeId : Nat
  pubKey : Str
deriving DecidableEq

/-- The /registerNode handler of launchRegistry (registry.ts): push the
posted pair onto the directory, unconditionally. -/
def registerNode (nodes : List Node) (nodeId : Nat) (pubKey : Str) : List Node :=
  nodes ++ [⟨nodeId, pubKey⟩]

/-- The /getNodeRegistry handler of launchRegistry (registry.ts): return
the whole directory in its current order. -/
def getNodeRegistry (nodes : List Node) : List Node := nodes

-- ### abstract cryptographic primitives (external WebCrypto calls)

/-- The external WebCrypto primitives used by src/crypto.ts, abstracted.
Each field is exactly one composition of library calls the repository
performs; the repository-authored logic (IV prefixing, the 24- and
344-character splits, concatenation of layers) stays outside, in the
definitions below.

* `exportSymKey`: exportKey("raw") then base64 (crypto.ts exportSymKey).
* `aesEncB64`: TextEncoder.encode, AES-CBC encrypt under key and IV,
  then base64 (the interior of crypto.ts symEncrypt).
* `aesDecB64`: importSymKey of the base64 key string, base64-decode of
  the ciphertext, AES-CBC decrypt, TextDecoder.decode (the interior of
  crypto.ts symDecrypt); `none` models a thrown DecryptionError.
* `ivToB64` / `ivOfB64`: arrayBufferToBase64 / base64ToArrayBuffer on the
  16-byte IV.
* `rsaEncrypt`: crypto.ts rsaEncrypt (importPubKey, base64-decode the
  payload, RSA-OAEP encrypt, base64) as a function of the payload and the
  base64 public-key string.
* `rsaDecrypt`: crypto.ts rsaDecrypt; `none` models a thrown
  DecryptionError (wrong key or corrupted ciphertext). -/
structure Crypto where
  SymKey : Type
  IV : Type
  PrvKey : Type
  exportSymKey : SymKey → Str
  aesEncB64 : SymKey → IV → Str → Str
  aesDecB64 : Str → IV → Str → Option Str
  ivToB64 : IV → Str
  ivOfB64 : Str → IV
  rsaEncrypt : Str → Str → Str
  rsaDecrypt : Str → PrvKey → Option Str

/-- crypto.ts symEncrypt: draw a fresh IV (here a parameter), AES-encrypt
the data, and return base64(iv) concatenated with base64(ciphertext). -/
def symEncrypt (C : Crypto) (key : C.SymKey) (iv : C.IV) (data : Str) : Str :=
  C.ivToB64 iv ++ C.aesEncB64 key iv data

/-- crypto.ts symDecrypt: split the incoming blob at character 24
(encryptedData.slice(0, 24) is the base64 IV, the rest the base64
ciphertext), import the key string, and decrypt. -/
def symDecrypt (C : Crypto) (strKey : Str) (encryptedData : Str) : Option Str :=
  C.aesDecB64 strKey (C.ivOfB64 (encryptedData.take 24)) (encryptedData.drop 24)

-- ### router peeling (src/.../simpleOnionRouter, the /message handler)

/-- The decryption part of the router's /message handler (part_000 lines
84-93): slice the layer at character 344, RSA-decrypt the prefix into the
symmetric key string, symmetrically decrypt the remainder, and split the
plaintext into the 10-digit next-hop address and the forwarded body.
`none` models an exception thrown by either decryption, which aborts the
handler before any state update. -/
def peelLayer (C : Crypto) (prv : C.PrvKey) (layer : Str) : Option (Nat × Str) :=
  (C.rsaDecrypt (layer.take 344) prv).bind fun symKey =>
    (symDecrypt C symKey (layer.drop 344)).map fun message =>
      (parseInt10 (message.take 10), message.drop 10)

/-- The router's single-slot introspection state (part_000 lines 15-30):
all fields start as null and are overwritten by each inbound message. -/
structure RouterState where
  lastReceivedEncryptedMessage : Option Str
  lastReceivedDecryptedMessage : Option Str
  lastMessageSource : Option Nat
  lastMessageDestination : Option Nat
deriving DecidableEq

/-- The full /message handler of the router (part_000 lines 83-104) as a
state transformer: on success it overwrites the four introspection fields
and issues the forward (destination port, body) that the handler posts to
localhost; on a decryption failure the thrown exception aborts the
handler, so the state is returned unchanged and no forward happens. -/
def messageRoute (C : Crypto) (nodeId : Nat) (prv : C.PrvKey)
    (st : RouterState) (layer : Str) : RouterState × Option (Nat × Str) :=
  match peelLayer C prv layer with
  | none => (st, none)
  | some (dest, rest) =>
      (⟨some layer, some rest, some nodeId, some dest⟩, some (dest, rest))

/-- Observable events of one run of the router's /message handler, in
execution order: the downstream POST to the next hop, and the HTTP
response to the caller. -/
inductive Ev where
  | forward (port : Nat) (body : Str) : Ev
  | respond : Ev
deriving DecidableEq

/-- Event trace of the /message handler (part_000 lines 83-104).  The
source first awaits the downstream fetch and only then runs
res.send("success"); `fetchOk = false` models the awaited fetch
rejecting, which aborts the handler before the response is sent.  A
decryption failure aborts before either event. -/
def messageEvents (C : Crypto) (prv : C.PrvKey) (layer : Str) (fetchOk : Bool) :
    List Ev :=
  match peelLayer C prv layer with
  | none => []
  | some (dest, rest) =>
      if fetchOk then [Ev.forward dest rest, Ev.respond] else [Ev.forward dest rest]

-- ### user-side onion construction (part_001, the /sendMessage handler)

/-- One layer as built by an iteration of the user's sendMessage loop
(part_001 lines 65-73): the RSA-encrypted exported symmetric key,
followed by the symmetric encryption of destination ++ messageToSend. -/
def layerFor (C : Crypto) (node : Node) (k : C.SymKey) (iv : C.IV)
    (destination messageToSend : Str) : Str :=
  C.rsaEncrypt (C.exportSymKey k) node.pubKey
    ++ symEncrypt C k iv (destination ++ messageToSend)

/-- The whole sendMessage wrapping loop (part_001 lines 65-73), running
over the circuit in selection order with the fresh symmetric key and IV
of each iteration supplied in `hops`.  The state is the pair
(messageToSend, destination); each iteration wraps the current state into
a layer and resets destination to the current node's own router address
BASE_ONION_ROUTER_PORT + nodeId, zero-padded to 10 characters. -/
def onionLayers (C : Crypto) (bRouter : Nat) :
    List (Node × C.SymKey × C.IV) → Str × Str → Str × Str
  | [], st => st
  | (node, k, iv) :: rest, (messageToSend, destination) =>
      onionLayers C bRouter rest
        (layerFor C node k iv destination messageToSend,
         addr10 (bRouter + node.nodeId))

/-- The wire payload the user's sendMessage handler posts to the entry
node (part_001 lines 61-77): the loop starts from the plain message and
the destination user's padded address BASE_USER_PORT + destinationUserId,
and the final messageToSend is sent to the last-wrapped node. -/
def buildOnion (C : Crypto) (bRouter bUser : Nat) (message : Str)
    (destinationUserId : Nat) (hops : List (Node × C.SymKey × C.IV)) : Str :=
  (onionLayers C bRouter hops (message, addr10 (bUser + destinationUserId))).1

/-- Peeling a received onion three times, each peel exactly the router's
/message decryption (claim C1's description of the three-hop path):
the body recovered by one hop is the layer handled by the next. -/
def peelThrice (C : Crypto) (pOuter pMid pInner : C.PrvKey) (wire : Str) :
    Option Str :=
  (peelLayer C pOuter wire).bind fun r1 =>
    (peelLayer C pMid r1.2).bind fun r2 =>
      (peelLayer C pInner r2.2).map fun r3 => r3.2

-- ### circuit selection (part_001 lines 54-59)

/-- One iteration of the circuit-selection loop: the freshly fetched
directory entries are distinct JavaScript objects even when equal in
value, and Array.prototype.includes compares objects by reference, so
object identity is modelled by the directory index.  nodes[randomIndex]
is `some idx` for an in-range index and `none` for the out-of-range
undefined (which JS produces when the directory is empty). -/
def pickStep (n : Nat) (circuit : List (Option Nat)) (idx : Nat) :
    List (Option Nat) :=
  let v := if idx < n then some idx else none
  if v ∈ circuit then circuit else circuit ++ [v]

/-- The while (circuit.length < 3) selection loop of the user's
sendMessage handler, driven by the stream of random indices it draws;
`none` means the stream was exhausted with the loop still running (the
loop itself has no exit path other than reaching length 3). -/
def buildCircuitLoop (n : Nat) :
    List Nat → List (Option Nat) → Option (List (Option Nat))
  | [], circuit => if 3 ≤ circuit.length then some circuit else none
  | idx :: rest, circuit =>
      if 3 ≤ circuit.length then some circuit
      else buildCircuitLoop n rest (pickStep n circuit idx)

-- ### a concrete Crypto instance satisfying all the primitive laws

/-- A concrete instance of the abstract primitives, used to witness that
the cryptographic hypotheses of the theorems below are satisfiable: the
cipher is the identity, the exported key is a fixed 44-character string
(the base64 length of a raw 256-bit AES key), the IV is a digit encoded
24 times (the base64 length of a 16-byte IV), and the RSA ciphertext pads
its input to the 344 characters of a base64 2048-bit RSA-OAEP block. -/
def toyCrypto : Crypto :=
  Crypto.mk Nat (Fin 10) Unit
    (fun _ => List.replicate 44 'K')
    (fun _ _ m => m)
    (fun _ _ ct => some ct)
    (fun iv => List.replicate 24 (Char.ofNat (48 + iv.val)))
    (fun s =>
      match s with
      | [] => (0 : Fin 10)
      | c :: _ => ⟨(c.toNat - 48) % 10, Nat.mod_lt _ (by decide)⟩)
    (fun m _ => m ++ List.replicate (344 - m.length) '=')
    (fun s _ => some (s.take 44))

/-- toyCrypto with RSA decryption always throwing, for witnessing the
decryption-failure paths. -/
def failCrypto : Crypto :=
  Crypto.mk toyCrypto.SymKey toyCrypto.IV toyCrypto.PrvKey
    toyCrypto.exportSymKey toyCrypto.aesEncB64 toyCrypto.aesDecB64
    toyCrypto.ivToB64 toyCrypto.ivOfB64 toyCrypto.rsaEncrypt
    (fun _ _ => none)

theorem toyCrypto_rsa_len (k : Nat) (pub : Str) :
    (toyCrypto.rsaEncrypt (toyCrypto.exportSymKey k) pub).length = 344 := by
  show (List.replicate 44 'K' ++ List.replicate 300 '=').length = 344
  rw [List.length_append, List.length_replicate, List.length_replicate]

theorem toyCrypto_rsa_rt (k : Nat) (pub : Str) (prv : Unit) :
    toyCrypto.rsaDecrypt (toyCrypto.rsaEncrypt (toyCrypto.exportSymKey k) pub) prv
      = some (toyCrypto.exportSymKey k) := by
  show some ((List.replicate 44 'K' ++ List.replicate 300 '=').take 44)
      = some (List.replicate 44 'K')
  rw [take_eq_of_len_append (by simp)]

theorem toyCrypto_iv_len (iv : Fin 10) : (toyCrypto.ivToB64 iv).length = 24 := by
  show (List.replicate 24 (Char.ofNat (48 + iv.val))).length = 24
  rw [List.length_replicate]

theorem toyCrypto_iv_rt (iv : Fin 10) :
    toyCrypto.ivOfB64 (toyCrypto.ivToB64 iv) = iv := by
  fin_cases iv <;> rfl

theorem toyCrypto_aes_rt (k : Nat) (iv : Fin 10) (m : Str) :
    toyCrypto.aesDecB64 (toyCrypto.exportSymKey k) iv (toyCrypto.aesEncB64 k iv m)
      = some m := rfl

-- ### the core peel lemma: one router layer undoes one user layer

/-- Peeling a layer built by one iteration of the user's wrapping loop
recovers exactly the embedded address and the inner content, provided
the primitives obey the real WebCrypto laws for that layer's key and IV
and the router's private key matches the node's public key. -/
theorem peelLayer_layerFor (C : Crypto) (prv : C.PrvKey) (node : Node)
    (k : C.SymKey) (iv : C.IV) (a : Nat) (inner : Str)
    (hRsaLen : (C.rsaEncrypt (C.exportSymKey k) node.pubKey).length = 344)
    (hRsa : C.rsaDecrypt (C.rsaEncrypt (C.exportSymKey k) node.pubKey) prv
              = some (C.exportSymKey k))
    (hIvLen : (C.ivToB64 iv).length = 24)
    (hIvRt : C.ivOfB64 (C.ivToB64 iv) = iv)
    (hAes : ∀ m, C.aesDecB64 (C.exportSymKey k) iv (C.aesEncB64 k iv m) = some m)
    (hA : a < 10 ^ 10) :
    peelLayer C prv (layerFor C node k iv (addr10 a) inner) = some (a, inner) := by
  unfold peelLayer layerFor
  rw [take_eq_of_len_append hRsaLen, drop_eq_of_len_append hRsaLen, hRsa]
  simp only [Option.some_bind]
  unfold symDecrypt symEncrypt
  rw [take_eq_of_len_append hIvLen, drop_eq_of_len_append hIvLen, hIvRt, hAes]
  simp only [Option.map_some']
  rw [take_eq_of_len_append (addr10_length hA), drop_eq_of_len_append (addr10_length hA),
    parseInt10_addr10]

-- ### claim theorems

/-- C5: for every symmetric key k, plaintext m and 16-byte IV (any IV in
the abstract model, with the WebCrypto laws for it as hypotheses),
symDecrypt of exportSymKey k applied to symEncrypt k m returns m:
symEncrypt returns the base64 IV (exactly 24 characters) concatenated
with the base64 ciphertext, and symDecrypt splits at exactly 24
characters and inverts the encryption. -/
theorem c5_sym_roundtrip (C : Crypto) (k : C.SymKey) (iv : C.IV) (m : Str)
    (hIvLen : (C.ivToB64 iv).length = 24)
    (hIvRt : C.ivOfB64 (C.ivToB64 iv) = iv)
    (hAes : C.aesDecB64 (C.exportSymKey k) iv (C.aesEncB64 k iv m) = some m) :
    symEncrypt C k iv m = C.ivToB64 iv ++ C.aesEncB64 k iv m
    ∧ (C.ivToB64 iv).length = 24
    ∧ symDecrypt C (C.exportSymKey k) (symEncrypt C k iv m) = some m := by
  refine ⟨rfl, hIvLen, ?_⟩
  unfold symDecrypt symEncrypt
  rw [take_eq_of_len_append hIvLen, drop_eq_of_len_append hIvLen, hIvRt, hAes]

theorem c5_sym_roundtrip_witness :
    (toyCrypto.ivToB64 (0 : Fin 10)).length = 24
    ∧ symDecrypt toyCrypto (toyCrypto.exportSymKey (0 : Nat))
        (symEncrypt toyCrypto (0 : Nat) (0 : Fin 10) ['a']) = some ['a'] :=
  ⟨toyCrypto_iv_len 0,
   (c5_sym_roundtrip toyCrypto (0 : Nat) (0 : Fin 10) ['a'] (toyCrypto_iv_len 0)
      (toyCrypto_iv_rt 0) (toyCrypto_aes_rt 0 0 ['a'])).2.2⟩

/-- C6: the registry directory is append-only and keeps insertion order:
registerNode appends one entry unconditionally, so registering the same
nodeId twice yields two independent entries, both returned in insertion
order by getNodeRegistry. -/
theorem c6_registry_append (nodes : List Node) (nodeId : Nat) (k1 k2 : Str) :
    registerNode nodes nodeId k1 = nodes ++ [⟨nodeId, k1⟩]
    ∧ (registerNode nodes nodeId k1).length = nodes.length + 1
    ∧ getNodeRegistry (registerNode (registerNode nodes nodeId k1) nodeId k2)
        = nodes ++ [⟨nodeId, k1⟩, ⟨nodeId, k2⟩] := by
  refine ⟨rfl, by simp [registerNode], ?_⟩
  show (nodes ++ [⟨nodeId, k1⟩]) ++ [⟨nodeId, k2⟩] = nodes ++ [⟨nodeId, k1⟩, ⟨nodeId, k2⟩]
  rw [List.append_assoc]
  rfl

/-- C8: encrypting the same plaintext under the same key with two
distinct IVs produces distinct ciphertext blobs, and symDecrypt returns
the identical plaintext from either blob. -/
theorem c8_iv_nondeterminism (C : Crypto) (k : C.SymKey) (iv1 iv2 : C.IV) (m : Str)
    (hne : iv1 ≠ iv2)
    (hLen1 : (C.ivToB64 iv1).length = 24) (hLen2 : (C.ivToB64 iv2).length = 24)
    (hRt1 : C.ivOfB64 (C.ivToB64 iv1) = iv1) (hRt2 : C.ivOfB64 (C.ivToB64 iv2) = iv2)
    (hAes1 : C.aesDecB64 (C.exportSymKey k) iv1 (C.aesEncB64 k iv1 m) = some m)
    (hAes2 : C.aesDecB64 (C.exportSymKey k) iv2 (C.aesEncB64 k iv2 m) = some m) :
    symEncrypt C k iv1 m ≠ symEncrypt C k iv2 m
    ∧ symDecrypt C (C.exportSymKey k) (symEncrypt C k iv1 m) = some m
    ∧ symDecrypt C (C.exportSymKey k) (symEncrypt C k iv2 m) = some m := by
  refine ⟨?_, ?_, ?_⟩
  · intro heq
    apply hne
    have htake : (symEncrypt C k iv1 m).take 24 = (symEncrypt C k iv2 m).take 24 := by
      rw [heq]
    unfold symEncrypt at htake
    rw [take_eq_of_len_append hLen1, take_eq_of_len_append hLen2] at htake
    rw [← hRt1, ← hRt2, htake]
  · unfold symDecrypt symEncrypt
    rw [take_eq_of_len_append hLen1, drop_eq_of_len_append hLen1, hRt1, hAes1]
  · unfold symDecrypt symEncrypt
    rw [take_eq_of_len_append hLen2, drop_eq_of_len_append hLen2, hRt2, hAes2]

theorem c8_iv_nondeterminism_witness :
    symEncrypt toyCrypto (0 : Nat) (0 : Fin 10) ['a']
      ≠ symEncrypt toyCrypto (0 : Nat) (1 : Fin 10) ['a']
    ∧ symDecrypt toyCrypto (toyCrypto.exportSymKey (0 : Nat))
        (symEncrypt toyCrypto (0 : Nat) (0 : Fin 10) ['a']) = some ['a']
    ∧ symDecrypt toyCrypto (toyCrypto.exportSymKey (0 : Nat))
        (symEncrypt toyCrypto (0 : Nat) (1 : Fin 10) ['a']) = some ['a'] :=
  c8_iv_nondeterminism toyCrypto (0 : Nat) (0 : Fin 10) (1 : Fin 10) ['a']
    (by decide : (0 : Fin 10) ≠ (1 : Fin 10)) (toyCrypto_iv_len 0) (toyCrypto_iv_len 1)
    (toyCrypto_iv_rt 0) (toyCrypto_iv_rt 1)
    (toyCrypto_aes_rt 0 0 ['a']) (toyCrypto_aes_rt 0 1 ['a'])

/-- C9: under the law that the asymmetric scheme's base64 output is 344
characters long, every layer built by an iteration of the user's
sendMessage loop is the RSA-encrypted symmetric key in exactly the 344
leading characters followed by the symmetric payload, so the router's
slice at 344 always separates encryptedSymKey from encryptedPayload. -/
theorem c9_layer_split (C : Crypto) (bRouter : Nat) (node : Node)
    (k : C.SymKey) (iv : C.IV) (messageToSend destination : Str)
    (hRsaLen : (C.rsaEncrypt (C.exportSymKey k) node.pubKey).length = 344) :
    (onionLayers C bRouter [(node, k, iv)] (messageToSend, destination)).1
      = C.rsaEncrypt (C.exportSymKey k) node.pubKey
        ++ symEncrypt C k iv (destination ++ messageToSend)
    ∧ ((onionLayers C bRouter [(node, k, iv)] (messageToSend, destination)).1).take 344
      = C.rsaEncrypt (C.exportSymKey k) node.pubKey
    ∧ ((onionLayers C bRouter [(node, k, iv)] (messageToSend, destination)).1).drop 344
      = symEncrypt C k iv (destination ++ messageToSend) := by
  have h1 : (onionLayers C bRouter [(node, k, iv)] (messageToSend, destination)).1
      = C.rsaEncrypt (C.exportSymKey k) node.pubKey
        ++ symEncrypt C k iv (destination ++ messageToSend) := rfl
  exact ⟨h1, by rw [h1, take_eq_of_len_append hRsaLen],
    by rw [h1, drop_eq_of_len_append hRsaLen]⟩

theorem c9_layer_split_witness :
    (toyCrypto.rsaEncrypt (toyCrypto.exportSymKey (0 : Nat)) []).length = 344
    ∧ ((onionLayers toyCrypto 4000 [((⟨5, []⟩ : Node), (0 : Nat), (0 : Fin 10))]
          (['m'], ['d'])).1).take 344
      = toyCrypto.rsaEncrypt (toyCrypto.exportSymKey (0 : Nat)) [] :=
  ⟨toyCrypto_rsa_len 0 [],
   (c9_layer_split toyCrypto 4000 ⟨5, []⟩ (0 : Nat) (0 : Fin 10) ['m'] ['d']
      (toyCrypto_rsa_len 0 [])).2.1⟩

/-- C10: if either decryption inside the router's /message handler
throws, the handler aborts before the introspection fields are assigned
and before the forward is issued, so the state is unchanged and no
forward happens. -/
theorem c10_failure_preserves_state (C : Crypto) (nodeId : Nat) (prv : C.PrvKey)
    (st : RouterState) (layer : Str)
    (h : C.rsaDecrypt (layer.take 344) prv = none
         ∨ ∃ sk, C.rsaDecrypt (layer.take 344) prv = some sk
             ∧ symDecrypt C sk (layer.drop 344) = none) :
    messageRoute C nodeId prv st layer = (st, none) := by
  have hp : peelLayer C prv layer = none := by
    unfold peelLayer
    rcases h with h | ⟨sk, h1, h2⟩
    · rw [h]
      rfl
    · rw [h1, Option.some_bind, h2]
      rfl
  unfold messageRoute
  rw [hp]

theorem c10_failure_preserves_state_witness :
    messageRoute failCrypto 7 () ⟨none, none, none, none⟩ ['x']
      = (⟨none, none, none, none⟩, none) :=
  c10_failure_preserves_state failCrypto 7 () ⟨none, none, none, none⟩ ['x']
    (Or.inl rfl)

/-- C7 as stated is false: at a concrete input the handler's event trace
is the forward followed by the response (the source awaits the fetch and
only then calls res.send), the response does not precede the forward,
and when the forward fails no response is emitted at all. -/
theorem c7_counterexample :
    messageEvents toyCrypto () ['x'] true = [Ev.forward 0 [], Ev.respond]
    ∧ ¬ (messageEvents toyCrypto () ['x'] true).indexOf Ev.respond
        < (messageEvents toyCrypto () ['x'] true).indexOf (Ev.forward 0 [])
    ∧ messageEvents toyCrypto () ['x'] false = [Ev.forward 0 []] := by
  decide

/-- C7 amended: the router awaits the downstream forward and only then
responds: whenever the response event occurs in the handler's trace, the
downstream fetch succeeded and the trace is exactly the forward followed
by the response, so a downstream delivery failure suppresses the
response and is visible to the caller. -/
theorem c7_forward_precedes_response (C : Crypto) (prv : C.PrvKey) (layer : Str)
    (fetchOk : Bool) (h : Ev.respond ∈ messageEvents C prv layer fetchOk) :
    fetchOk = true
    ∧ ∃ dest rest, messageEvents C prv layer fetchOk
        = [Ev.forward dest rest, Ev.respond] := by
  cases hp : peelLayer C prv layer with
  | none =>
    simp only [messageEvents, hp] at h
    exact absurd h (List.not_mem_nil _)
  | some dr =>
    obtain ⟨dest, rest⟩ := dr
    cases fetchOk with
    | false =>
      simp only [messageEvents, hp, if_neg] at h
      simp at h
    | true =>
      refine ⟨rfl, dest, rest, ?_⟩
      simp only [messageEvents, hp, if_pos]

theorem c7_forward_precedes_response_witness :
    Ev.respond ∈ messageEvents toyCrypto () ['x'] true
    ∧ (true = true
       ∧ ∃ dest rest, messageEvents toyCrypto () ['x'] true
           = [Ev.forward dest rest, Ev.respond]) :=
  ⟨by decide, c7_forward_precedes_response toyCrypto () ['x'] true (by decide)⟩

/-- Core onion lemma shared by the round-trip and address-fidelity
claims: the wire payload built by sendMessage over the selection-order
circuit [n0, n1, n2] is peeled by the traversal-order hops n2, n1, n0,
each peel recovering the next hop's routing address and the next layer,
the last recovering the destination user's address and the message. -/
theorem onionThreePeels (C : Crypto) (bRouter bUser : Nat)
    (n0 n1 n2 : Node) (p0 p1 p2 : C.PrvKey)
    (k0 k1 k2 : C.SymKey) (iv0 iv1 iv2 : C.IV) (M : Str) (d : Nat)
    (hIvLen : ∀ iv, (C.ivToB64 iv).length = 24)
    (hIvRt : ∀ iv, C.ivOfB64 (C.ivToB64 iv) = iv)
    (hAes : ∀ k iv m, C.aesDecB64 (C.exportSymKey k) iv (C.aesEncB64 k iv m) = some m)
    (hLen0 : (C.rsaEncrypt (C.exportSymKey k0) n0.pubKey).length = 344)
    (hLen1 : (C.rsaEncrypt (C.exportSymKey k1) n1.pubKey).length = 344)
    (hLen2 : (C.rsaEncrypt (C.exportSymKey k2) n2.pubKey).length = 344)
    (hRsa0 : C.rsaDecrypt (C.rsaEncrypt (C.exportSymKey k0) n0.pubKey) p0
               = some (C.exportSymKey k0))
    (hRsa1 : C.rsaDecrypt (C.rsaEncrypt (C.exportSymKey k1) n1.pubKey) p1
               = some (C.exportSymKey k1))
    (hRsa2 : C.rsaDecrypt (C.rsaEncrypt (C.exportSymKey k2) n2.pubKey) p2
               = some (C.exportSymKey k2))
    (hU : bUser + d < 10 ^ 10)
    (hA0 : bRouter + n0.nodeId < 10 ^ 10)
    (hA1 : bRouter + n1.nodeId < 10 ^ 10) :
    peelLayer C p2 (buildOnion C bRouter bUser M d
        [(n0, k0, iv0), (n1, k1, iv1), (n2, k2, iv2)])
      = some (bRouter + n1.nodeId,
          layerFor C n1 k1 iv1 (addr10 (bRouter + n0.nodeId))
            (layerFor C n0 k0 iv0 (addr10 (bUser + d)) M))
    ∧ peelLayer C p1 (layerFor C n1 k1 iv1 (addr10 (bRouter + n0.nodeId))
          (layerFor C n0 k0 iv0 (addr10 (bUser + d)) M))
      = some (bRouter + n0.nodeId, layerFor C n0 k0 iv0 (addr10 (bUser + d)) M)
    ∧ peelLayer C p0 (layerFor C n0 k0 iv0 (addr10 (bUser + d)) M)
      = some (bUser + d, M) := by
  have hwire : buildOnion C bRouter bUser M d
      [(n0, k0, iv0), (n1, k1, iv1), (n2, k2, iv2)]
      = layerFor C n2 k2 iv2 (addr10 (bRouter + n1.nodeId))
          (layerFor C n1 k1 iv1 (addr10 (bRouter + n0.nodeId))
            (layerFor C n0 k0 iv0 (addr10 (bUser + d)) M)) := rfl
  refine ⟨?_, ?_, ?_⟩
  · rw [hwire]
    exact peelLayer_layerFor C p2 n2 k2 iv2 _ _ hLen2 hRsa2 (hIvLen iv2)
      (hIvRt iv2) (hAes k2 iv2) hA1
  · exact peelLayer_layerFor C p1 n1 k1 iv1 _ _ hLen1 hRsa1 (hIvLen iv1)
      (hIvRt iv1) (hAes k1 iv1) hA0
  · exact peelLayer_layerFor C p0 n0 k0 iv0 _ _ hLen0 hRsa0 (hIvLen iv0)
      (hIvRt iv0) (hAes k0 iv0) hU

/-- C1: for every message M, destination user id d, and circuit of 3
nodes whose public keys correspond to the hops' private keys, peeling
the onion produced by the user's sendMessage three times (each peel:
RSA-decrypt the first 344 characters to recover the symmetric key,
symmetric-decrypt the remainder, strip the 10-digit address prefix)
yields exactly M at the destination.  The hops peel in traversal order
n2, n1, n0 since sendMessage reverses the selection-order circuit before
posting to the entry node. -/
theorem c1_onion_roundtrip (C : Crypto) (bRouter bUser : Nat)
    (n0 n1 n2 : Node) (p0 p1 p2 : C.PrvKey)
    (k0 k1 k2 : C.SymKey) (iv0 iv1 iv2 : C.IV) (M : Str) (d : Nat)
    (hIvLen : ∀ iv, (C.ivToB64 iv).length = 24)
    (hIvRt : ∀ iv, C.ivOfB64 (C.ivToB64 iv) = iv)
    (hAes : ∀ k iv m, C.aesDecB64 (C.exportSymKey k) iv (C.aesEncB64 k iv m) = some m)
    (hLen0 : (C.rsaEncrypt (C.exportSymKey k0) n0.pubKey).length = 344)
    (hLen1 : (C.rsaEncrypt (C.exportSymKey k1) n1.pubKey).length = 344)
    (hLen2 : (C.rsaEncrypt (C.exportSymKey k2) n2.pubKey).length = 344)
    (hRsa0 : C.rsaDecrypt (C.rsaEncrypt (C.exportSymKey k0) n0.pubKey) p0
               = some (C.exportSymKey k0))
    (hRsa1 : C.rsaDecrypt (C.rsaEncrypt (C.exportSymKey k1) n1.pubKey) p1
               = some (C.exportSymKey k1))
    (hRsa2 : C.rsaDecrypt (C.rsaEncrypt (C.exportSymKey k2) n2.pubKey) p2
               = some (C.exportSymKey k2))
    (hU : bUser + d < 10 ^ 10)
    (hA0 : bRouter + n0.nodeId < 10 ^ 10)
    (hA1 : bRouter + n1.nodeId < 10 ^ 10) :
    peelThrice C p2 p1 p0 (buildOnion C bRouter bUser M d
        [(n0, k0, iv0), (n1, k1, iv1), (n2, k2, iv2)]) = some M := by
  obtain ⟨e2, e1, e0⟩ := onionThreePeels C bRouter bUser n0 n1 n2 p0 p1 p2
    k0 k1 k2 iv0 iv1 iv2 M d hIvLen hIvRt hAes hLen0 hLen1 hLen2
    hRsa0 hRsa1 hRsa2 hU hA0 hA1
  unfold peelThrice
  rw [e2, Option.some_bind, e1, Option.some_bind, e0, Option.map_some']

theorem c1_onion_roundtrip_witness :
    (3000 + 1 < 10 ^ 10)
    ∧ peelThrice toyCrypto () () ()
        (buildOnion toyCrypto 4000 3000 ['h', 'i'] 1
          [((⟨0, []⟩ : Node), (0 : Nat), (0 : Fin 10)),
           ((⟨1, []⟩ : Node), (1 : Nat), (1 : Fin 10)),
           ((⟨2, []⟩ : Node), (2 : Nat), (2 : Fin 10))]) = some ['h', 'i'] :=
  ⟨by norm_num,
   c1_onion_roundtrip toyCrypto 4000 3000 ⟨0, []⟩ ⟨1, []⟩ ⟨2, []⟩ () () ()
     (0 : Nat) (1 : Nat) (2 : Nat) (0 : Fin 10) (1 : Fin 10) (2 : Fin 10)
     ['h', 'i'] 1 toyCrypto_iv_len toyCrypto_iv_rt toyCrypto_aes_rt
     (toyCrypto_rsa_len 0 []) (toyCrypto_rsa_len 1 []) (toyCrypto_rsa_len 2 [])
     (toyCrypto_rsa_rt 0 [] ()) (toyCrypto_rsa_rt 1 [] ()) (toyCrypto_rsa_rt 2 [] ())
     (by norm_num) (by norm_num) (by norm_num)⟩

/-- C2: the 10-digit address recovered when hop k peels its layer equals
the routing address bRouter + nodeId of hop k+1 in traversal order
(traversal order n2, n1, n0 is the reverse of the selection order, as
sendMessage reverses the circuit), and the address recovered at the last
hop equals bUser + d, the true destination's address. -/
theorem c2_address_fidelity (C : Crypto) (bRouter bUser : Nat)
    (n0 n1 n2 : Node) (p0 p1 p2 : C.PrvKey)
    (k0 k1 k2 : C.SymKey) (iv0 iv1 iv2 : C.IV) (M : Str) (d : Nat)
    (hIvLen : ∀ iv, (C.ivToB64 iv).length = 24)
    (hIvRt : ∀ iv, C.ivOfB64 (C.ivToB64 iv) = iv)
    (hAes : ∀ k iv m, C.aesDecB64 (C.exportSymKey k) iv (C.aesEncB64 k iv m) = some m)
    (hLen0 : (C.rsaEncrypt (C.exportSymKey k0) n0.pubKey).length = 344)
    (hLen1 : (C.rsaEncrypt (C.exportSymKey k1) n1.pubKey).length = 344)
    (hLen2 : (C.rsaEncrypt (C.exportSymKey k2) n2.pubKey).length = 344)
    (hRsa0 : C.rsaDecrypt (C.rsaEncrypt (C.exportSymKey k0) n0.pubKey) p0
               = some (C.exportSymKey k0))
    (hRsa1 : C.rsaDecrypt (C.rsaEncrypt (C.exportSymKey k1) n1.pubKey) p1
               = some (C.exportSymKey k1))
    (hRsa2 : C.rsaDecrypt (C.rsaEncrypt (C.exportSymKey k2) n2.pubKey) p2
               = some (C.exportSymKey k2))
    (hU : bUser + d < 10 ^ 10)
    (hA0 : bRouter + n0.nodeId < 10 ^ 10)
    (hA1 : bRouter + n1.nodeId < 10 ^ 10) :
    ∃ l1 l0,
      peelLayer C p2 (buildOnion C bRouter bUser M d
          [(n0, k0, iv0), (n1, k1, iv1), (n2, k2, iv2)])
        = some (bRouter + n1.nodeId, l1)
      ∧ peelLayer C p1 l1 = some (bRouter + n0.nodeId, l0)
      ∧ peelLayer C p0 l0 = some (bUser + d, M) := by
  obtain ⟨e2, e1, e0⟩ := onionThreePeels C bRouter bUser n0 n1 n2 p0 p1 p2
    k0 k1 k2 iv0 iv1 iv2 M d hIvLen hIvRt hAes hLen0 hLen1 hLen2
    hRsa0 hRsa1 hRsa2 hU hA0 hA1
  exact ⟨_, _, e2, e1, e0⟩

theorem c2_address_fidelity_witness :
    (4000 + 0 < 10 ^ 10)
    ∧ ∃ l1 l0,
        peelLayer toyCrypto ()
          (buildOnion toyCrypto 4000 3000 ['h', 'i'] 1
            [((⟨0, []⟩ : Node), (0 : Nat), (0 : Fin 10)),
             ((⟨1, []⟩ : Node), (1 : Nat), (1 : Fin 10)),
             ((⟨2, []⟩ : Node), (2 : Nat), (2 : Fin 10))])
          = some (4000 + Node.nodeId ⟨1, []⟩, l1)
        ∧ peelLayer toyCrypto () l1 = some (4000 + Node.nodeId ⟨0, []⟩, l0)
        ∧ peelLayer toyCrypto () l0 = some (3000 + 1, ['h', 'i']) :=
  ⟨by norm_num,
   c2_address_fidelity toyCrypto 4000 3000 ⟨0, []⟩ ⟨1, []⟩ ⟨2, []⟩ () () ()
     (0 : Nat) (1 : Nat) (2 : Nat) (0 : Fin 10) (1 : Fin 10) (2 : Fin 10)
     ['h', 'i'] 1 toyCrypto_iv_len toyCrypto_iv_rt toyCrypto_aes_rt
     (toyCrypto_rsa_len 0 []) (toyCrypto_rsa_len 1 []) (toyCrypto_rsa_len 2 [])
     (toyCrypto_rsa_rt 0 [] ()) (toyCrypto_rsa_rt 1 [] ()) (toyCrypto_rsa_rt 2 [] ())
     (by norm_num) (by norm_num) (by norm_num)⟩

-- ### lemmas on the circuit-selection loop

theorem pickStep_nodup {n : Nat} {c : List (Option Nat)} (h : c.Nodup) (idx : Nat) :
    (pickStep n c idx).Nodup := by
  unfold pickStep
  by_cases hv : (if idx < n then some idx else none) ∈ c
  · rw [if_pos hv]
    exact h
  · rw [if_neg hv]
    refine List.Nodup.append h (List.nodup_singleton _) ?_
    intro x hx hx1
    rw [List.mem_singleton] at hx1
    subst hx1
    exact hv hx

theorem pickStep_mem {n : Nat} {c : List (Option Nat)} {idx : Nat} {x : Option Nat}
    (h : x ∈ pickStep n c idx) :
    x ∈ c ∨ x = (if idx < n then some idx else none) := by
  unfold pickStep at h
  by_cases hv : (if idx < n then some idx else none) ∈ c
  · rw [if_pos hv] at h
    exact Or.inl h
  · rw [if_neg hv] at h
    rcases List.mem_append.mp h with h | h
    · exact Or.inl h
    · exact Or.inr (List.mem_singleton.mp h)

theorem pickStep_mem_self {n : Nat} (c : List (Option Nat)) (idx : Nat) :
    (if idx < n then some idx else none) ∈ pickStep n c idx := by
  unfold pickStep
  by_cases hv : (if idx < n then some idx else none) ∈ c
  · rw [if_pos hv]
    exact hv
  · rw [if_neg hv]
    exact List.mem_append.mpr (Or.inr (List.mem_singleton.mpr rfl))

theorem pickStep_subset {n : Nat} (c : List (Option Nat)) (idx : Nat) :
    ∀ x ∈ c, x ∈ pickStep n c idx := by
  intro x hx
  unfold pickStep
  by_cases hv : (if idx < n then some idx else none) ∈ c
  · rw [if_pos hv]
    exact hx
  · rw [if_neg hv]
    exact List.mem_append.mpr (Or.inl hx)

theorem pickStep_length {n : Nat} (c : List (Option Nat)) (idx : Nat) :
    (pickStep n c idx).length ≤ c.length + 1 := by
  unfold pickStep
  by_cases hv : (if idx < n then some idx else none) ∈ c
  · rw [if_pos hv]
    omega
  · rw [if_neg hv]
    simp

theorem nodup_subset_length {α : Type} [DecidableEq α] {c a : List α}
    (hc : c.Nodup) (h : ∀ x ∈ c, x ∈ a) : c.length ≤ a.length :=
  calc c.length = c.toFinset.card := (List.toFinset_card_of_nodup hc).symm
    _ ≤ a.toFinset.card :=
        Finset.card_le_card fun x hx =>
          List.mem_toFinset.mpr (h x (List.mem_toFinset.mp hx))
    _ ≤ a.length := List.toFinset_card_le a

/-- Invariant carried by the selection loop when it terminates: the loop
only stops at length exactly 3, the circuit stays duplicate-free, and
every entry is an in-range directory index. -/
theorem buildCircuitLoop_some_spec {n : Nat} :
    ∀ (idxs : List Nat) (circuit out : List (Option Nat)),
      (∀ i ∈ idxs, i < n) →
      (∀ o ∈ circuit, ∃ i, i < n ∧ o = some i) →
      circuit.Nodup → circuit.length ≤ 3 →
      buildCircuitLoop n idxs circuit = some out →
      out.length = 3 ∧ out.Nodup ∧ ∀ o ∈ out, ∃ i, i < n ∧ o = some i := by
  intro idxs
  induction idxs with
  | nil =>
    intro circuit out hidx hmem hnd hlen h
    unfold buildCircuitLoop at h
    by_cases h3 : 3 ≤ circuit.length
    · rw [if_pos h3] at h
      obtain rfl : circuit = out := Option.some_injective _ h
      exact ⟨by omega, hnd, hmem⟩
    · rw [if_neg h3] at h
      exact absurd h (by simp)
  | cons i rest ih =>
    intro circuit out hidx hmem hnd hlen h
    unfold buildCircuitLoop at h
    by_cases h3 : 3 ≤ circuit.length
    · rw [if_pos h3] at h
      obtain rfl : circuit = out := Option.some_injective _ h
      exact ⟨by omega, hnd, hmem⟩
    · rw [if_neg h3] at h
      refine ih (pickStep n circuit i) out
        (fun j hj => hidx j (List.mem_cons_of_mem i hj)) ?_
        (pickStep_nodup hnd i) ?_ h
      · intro o ho
        rcases pickStep_mem ho with ho | ho
        · exact hmem o ho
        · have hi : i < n := hidx i (List.mem_cons_self i rest)
          rw [if_pos hi] at ho
          exact ⟨i, hi, ho⟩
      · have := pickStep_length (n := n) circuit i
        omega

/-- When the loop runs out of index stream without terminating, all the
drawn values together with the starting circuit fit in at most 2
distinct values (the loop keeps running only below length 3 and collects
every distinct value it sees). -/
theorem buildCircuitLoop_none_card {n : Nat} :
    ∀ (idxs : List Nat) (circuit : List (Option Nat)),
      buildCircuitLoop n idxs circuit = none → circuit.Nodup →
      (circuit.toFinset
        ∪ (idxs.map fun i => if i < n then some i else none).toFinset).card ≤ 2 := by
  intro idxs
  induction idxs with
  | nil =>
    intro circuit h hnd
    unfold buildCircuitLoop at h
    by_cases h3 : 3 ≤ circuit.length
    · rw [if_pos h3] at h
      exact absurd h (by simp)
    · simp only [List.map_nil, List.toFinset_nil, Finset.union_empty]
      calc circuit.toFinset.card = circuit.length := List.toFinset_card_of_nodup hnd
        _ ≤ 2 := by omega
  | cons i rest ih =>
    intro circuit h hnd
    unfold buildCircuitLoop at h
    by_cases h3 : 3 ≤ circuit.length
    · rw [if_pos h3] at h
      exact absurd h (by simp)
    · rw [if_neg h3] at h
      have hrec := ih (pickStep n circuit i) h (pickStep_nodup hnd i)
      refine le_trans (Finset.card_le_card ?_) hrec
      intro x hx
      simp only [List.map_cons, List.toFinset_cons, Finset.mem_union,
        Finset.mem_insert, List.mem_toFinset] at hx ⊢
      rcases hx with hx | hx | hx
      · exact Or.inl (pickStep_subset circuit i x hx)
      · subst hx
        exact Or.inl (pickStep_mem_self circuit i)
      · exact Or.inr hx

theorem card_toFinset_map_some (l : List Nat) :
    (l.map some).toFinset.card = l.toFinset.card := by
  induction l with
  | nil => rfl
  | cons a t ih =>
    simp only [List.map_cons, List.toFinset_cons]
    have hmem : some a ∈ (t.map some).toFinset ↔ a ∈ t.toFinset := by
      simp
    by_cases h : a ∈ t.toFinset
    · rw [Finset.insert_eq_self.mpr (hmem.mpr h), Finset.insert_eq_self.mpr h, ih]
    · rw [Finset.card_insert_of_not_mem (fun hc => h (hmem.mp hc)),
        Finset.card_insert_of_not_mem h, ih]

/-- If the drawn index stream contains at least 3 distinct in-range
indices, the selection loop terminates with a circuit. -/
theorem buildCircuitLoop_terminates {n : Nat} {idxs : List Nat}
    (hidx : ∀ i ∈ idxs, i < n) (hdist : 3 ≤ idxs.dedup.length) :
    (buildCircuitLoop n idxs []).isSome = true := by
  rcases hs : buildCircuitLoop n idxs [] with _ | c
  · exfalso
    have hcard := buildCircuitLoop_none_card idxs [] hs List.nodup_nil
    have hmapeq : (idxs.map fun i => if i < n then some i else none)
        = idxs.map some := List.map_congr_left fun i hi => if_pos (hidx i hi)
    rw [hmapeq] at hcard
    simp only [List.toFinset_nil, Finset.empty_union] at hcard
    have h1 : (idxs.map some).toFinset.card = idxs.toFinset.card :=
      card_toFinset_map_some idxs
    have h2 : idxs.toFinset.card = idxs.dedup.length := List.card_toFinset idxs
    omega
  · rfl

/-- The pool of values the loop can ever draw: `undefined` alone when the
directory is empty (JS indexes past the end), otherwise the in-range
directory indices. -/
def smallPool (n : Nat) : List (Option Nat) :=
  if n = 0 then [none] else (List.range n).map some

theorem smallPool_length {n : Nat} (hn : n < 3) : (smallPool n).length ≤ 2 := by
  unfold smallPool
  by_cases h0 : n = 0
  · rw [if_pos h0]
    decide
  · rw [if_neg h0]
    simp only [List.length_map, List.length_range]
    omega

theorem smallPool_mem {n : Nat} {i : Nat} (hi : i < max n 1) :
    (if i < n then some i else none) ∈ smallPool n := by
  unfold smallPool
  by_cases h0 : n = 0
  · subst h0
    have : ¬ i < 0 := by omega
    rw [if_neg this, if_pos rfl]
    exact List.mem_singleton.mpr rfl
  · have hi0 : i < n := by omega
    rw [if_pos hi0, if_neg h0]
    exact List.mem_map.mpr ⟨i, List.mem_range.mpr hi0, rfl⟩

/-- With fewer than 3 directory entries, the loop can never collect 3
distinct values, so it never terminates: every finite run of the index
stream leaves it still spinning. -/
theorem buildCircuitLoop_small {n : Nat} (hn : n < 3) :
    ∀ (idxs : List Nat) (circuit : List (Option Nat)),
      (∀ i ∈ idxs, i < max n 1) → circuit.Nodup →
      (∀ o ∈ circuit, o ∈ smallPool n) →
      buildCircuitLoop n idxs circuit = none := by
  intro idxs
  induction idxs with
  | nil =>
    intro circuit hidx hnd hpool
    unfold buildCircuitLoop
    have hle : circuit.length ≤ (smallPool n).length := nodup_subset_length hnd hpool
    have h2 : (smallPool n).length ≤ 2 := smallPool_length hn
    rw [if_neg (by omega)]
  | cons i rest ih =>
    intro circuit hidx hnd hpool
    unfold buildCircuitLoop
    have hle : circuit.length ≤ (smallPool n).length := nodup_subset_length hnd hpool
    have h2 : (smallPool n).length ≤ 2 := smallPool_length hn
    rw [if_neg (by omega)]
    refine ih (pickStep n circuit i)
      (fun j hj => hidx j (List.mem_cons_of_mem i hj))
      (pickStep_nodup hnd i) ?_
    intro o ho
    rcases pickStep_mem ho with ho | ho
    · exact hpool o ho
    · subst ho
      exact smallPool_mem (hidx i (List.mem_cons_self i rest))

/-- C3: whenever the user's circuit-selection loop terminates over a
directory of at least 3 nodes (with every drawn index in range, as
Math.random guarantees), the resulting circuit has exactly 3 entries,
pairwise distinct by object identity (directory index), each an entry of
the supplied directory. -/
theorem c3_circuit_valid (nodes : List Node) (idxs : List Nat)
    (out : List (Option Nat))
    (_hn : 3 ≤ nodes.length)
    (hidx : ∀ i ∈ idxs, i < nodes.length)
    (h : buildCircuitLoop nodes.length idxs [] = some out) :
    out.length = 3 ∧ out.Nodup
    ∧ ∀ o ∈ out, ∃ i node, o = some i ∧ nodes[i]? = some node ∧ node ∈ nodes := by
  obtain ⟨hl, hnd, hm⟩ := buildCircuitLoop_some_spec idxs [] out hidx
    (by simp) List.nodup_nil (by simp) h
  refine ⟨hl, hnd, ?_⟩
  intro o ho
  obtain ⟨i, hi, rfl⟩ := hm o ho
  exact ⟨i, nodes[i], rfl, List.getElem?_eq_getElem hi, List.getElem_mem hi⟩

theorem c3_circuit_valid_witness :
    (3 ≤ ([(⟨0, []⟩ : Node), ⟨1, []⟩, ⟨2, []⟩] : List Node).length)
    ∧ ([some 0, some 1, some 2] : List (Option Nat)).length = 3
      ∧ ([some 0, some 1, some 2] : List (Option Nat)).Nodup
      ∧ ∀ o ∈ ([some 0, some 1, some 2] : List (Option Nat)),
          ∃ i node, o = some i
            ∧ ([(⟨0, []⟩ : Node), ⟨1, []⟩, ⟨2, []⟩] : List Node)[i]? = some node
            ∧ node ∈ ([(⟨0, []⟩ : Node), ⟨1, []⟩, ⟨2, []⟩] : List Node) :=
  ⟨by decide,
   c3_circuit_valid [⟨0, []⟩, ⟨1, []⟩, ⟨2, []⟩] [0, 1, 2] [some 0, some 1, some 2]
     (by decide) (by decide) (by decide)⟩

/-- C4: the selection loop terminates for every random index stream that
eventually hits 3 distinct in-range directory entries, and with fewer
than 3 directory entries it never terminates, whatever the (in-range,
including the index-0-on-empty quirk of Math.random) stream does; no
error is reported in the too-small case, the loop just never produces a
circuit. -/
theorem c4_selection_termination :
    (∀ (n : Nat) (idxs : List Nat), (∀ i ∈ idxs, i < n) →
      3 ≤ idxs.dedup.length → (buildCircuitLoop n idxs []).isSome = true)
    ∧ (∀ (n : Nat) (idxs : List Nat), n < 3 → (∀ i ∈ idxs, i < max n 1) →
      buildCircuitLoop n idxs [] = none) :=
  ⟨fun _ idxs h1 h2 => buildCircuitLoop_terminates h1 h2,
   fun _ idxs hn hidx =>
     buildCircuitLoop_small hn idxs [] hidx List.nodup_nil (by simp)⟩

theorem c4_selection_termination_witness :
    (buildCircuitLoop 3 [0, 1, 2] []).isSome = true
    ∧ buildCircuitLoop 2 [0, 1, 0, 1] [] = none :=
  ⟨c4_selection_termination.1 3 [0, 1, 2] (by decide) (by decide),
   c4_selection_termination.2 2 [0, 1, 0, 1] (by decide) (by decide)⟩

end Onion
